import Mathlib

/-!
Verification of the MuSig2 Solana token-signing core (`src/tss.rs`,
`src/serialization.rs`) against its natural-language specification.

The development is a shallow embedding.  Bytes are natural numbers below 256
collected in `List Nat`.  The external cryptographic libraries (curv points,
ed25519 scalars, the bs58 crate) are abstracted into a context structure
`Ctx`; the laws the spec attributes to them are collected in `GoodCtx`.
Scalars are represented by their numeric value (a `Nat`), canonical mod the
group order `ell`.  Rust index-out-of-bounds aborts are modelled by the
`Outcome.crash` constructor, distinct from structured errors.
-/

/-- Little-endian interpretation of a byte list as a natural number. -/
def leNat (l : List Nat) : Nat :=
  l.foldr (fun b acc => b + 256 * acc) 0

/-- Little-endian encoding of a natural number into `k` bytes (truncating). -/
def natToLe : Nat → Nat → List Nat
  | 0, _ => []
  | k + 1, n => (n % 256) :: natToLe k (n / 256)

/-- The order of the ed25519 prime subgroup. -/
def ell : Nat := 2 ^ 252 + 27742317777372353535851937790883648493

/-- Abstraction of the external libraries: curv ed25519 points (`P`,
`pFrom`/`pTo` for `Point::from_bytes`/`to_bytes`), curv ed25519 scalars
represented by their value (`sFrom`/`sTo` for `Scalar::from_bytes`/`to_bytes`),
the group operations and the MuSig2 coefficient hash used by key aggregation,
and the bs58 crate (`b58enc`/`b58dec`). -/
structure Ctx where
  P : Type
  deq : DecidableEq P
  pFrom : List Nat → Option P
  pTo : P → List Nat
  sFrom : List Nat → Option Nat
  sTo : Nat → List Nat
  padd : P → P → P
  psmul : Nat → P → P
  pzero : P
  coeff : List P → P → Nat
  b58enc : List Nat → List Nat
  b58dec : List Nat → Option (List Nat)

instance (c : Ctx) : DecidableEq c.P := c.deq

/-- Laws the spec attributes to the external codecs: points and scalars have
canonical 32-byte encodings, decoding rejects everything non-canonical (hence
decoding is a partial inverse of encoding in both directions), and the bs58
encoding round-trips. -/
structure GoodCtx (c : Ctx) : Prop where
  pFrom_pTo : ∀ p, c.pFrom (c.pTo p) = some p
  pTo_pFrom : ∀ b p, c.pFrom b = some p → c.pTo p = b
  pTo_len : ∀ p, (c.pTo p).length = 32
  sFrom_sTo : ∀ s, s < ell → c.sFrom (c.sTo s) = some s
  sTo_len : ∀ s, s < ell → (c.sTo s).length = 32
  b58_round : ∀ v, c.b58dec (c.b58enc v) = some v

/-- Message tags, from `serialization.rs` (`enum Tag`). -/
inductive Tag where
  | AggregatedKey
  | AggMessage1
  | PartialSignature
  | SecretAggStepOne
  | KeyAggMessage
  | Unknown
deriving DecidableEq

/-- `impl From<u8> for Tag`: the discriminant values are 0..4, everything else
maps to `Unknown`. -/
def Tag.ofByte (t : Nat) : Tag :=
  if t = 0 then .AggregatedKey
  else if t = 1 then .AggMessage1
  else if t = 2 then .PartialSignature
  else if t = 3 then .SecretAggStepOne
  else if t = 4 then .KeyAggMessage
  else .Unknown

/-- Serialization error type, from `serialization.rs` (`enum Error`).  The
opaque library error payloads of `InvalidPoint`/`InvalidScalar`/`BadBase58`
are dropped. -/
inductive SerError where
  | InputTooShort (expected found : Nat)
  | BadBase58
  | InvalidPoint
  | InvalidScalar
  | WrongTag (expected found : Tag)
deriving DecidableEq

/-- `musig2::PublicPartialNonces`: a pair of public nonce points. -/
structure PublicPartialNonces (c : Ctx) where
  R : c.P × c.P

instance (c : Ctx) : DecidableEq (PublicPartialNonces c) := fun a b =>
  decidable_of_iff (a.R = b.R) (by cases a; cases b; simp)

/-- `struct AggMessage1 { public_nonces, sender }` from `serialization.rs`. -/
structure AggMessage1 (c : Ctx) where
  public_nonces : PublicPartialNonces c
  sender : List Nat

instance (c : Ctx) : DecidableEq (AggMessage1 c) := fun a b =>
  decidable_of_iff (a.public_nonces = b.public_nonces ∧ a.sender = b.sender)
    (by cases a; cases b; simp)

/-- `struct SecretAggStepOne { private_nonces, public_nonces }`; the private
nonces are a pair of scalars represented by their values. -/
structure SecretAggStepOne (c : Ctx) where
  private_nonces : Nat × Nat
  public_nonces : PublicPartialNonces c

instance (c : Ctx) : DecidableEq (SecretAggStepOne c) := fun a b =>
  decidable_of_iff (a.private_nonces = b.private_nonces ∧ a.public_nonces = b.public_nonces)
    (by cases a; cases b; simp)

/-- `struct PartialSignature(Signature)`: 64 raw signature bytes. -/
structure PartialSignature where
  sig : List Nat
deriving DecidableEq

/-- `struct AggregatedKeyInfo { aggregated_pubkey, participant_keys }`. -/
structure AggregatedKeyInfo where
  aggregated_pubkey : List Nat
  participant_keys : List (List Nat)
deriving DecidableEq

/-- `AggMessage1::serialize`: tag byte 1, both public nonces, sender. -/
def AggMessage1.serialize (c : Ctx) (m : AggMessage1 c) : List Nat :=
  1 :: (c.pTo m.public_nonces.R.1 ++ c.pTo m.public_nonces.R.2 ++ m.sender)

/-- `AggMessage1::deserialize`: length guard, tag guard, two points, sender. -/
def AggMessage1.deserialize (c : Ctx) (b : List Nat) : Except SerError (AggMessage1 c) :=
  if b.length < 1 + 32 + 32 + 32 then
    .error (.InputTooShort (1 + 32 + 32 + 32) b.length)
  else
    if Tag.ofByte (b.headD 0) = Tag.AggMessage1 then
      match c.pFrom ((b.drop 1).take 32) with
      | none => .error .InvalidPoint
      | some r0 =>
        match c.pFrom ((b.drop 33).take 32) with
        | none => .error .InvalidPoint
        | some r1 => .ok ⟨⟨(r0, r1)⟩, (b.drop 65).take 32⟩
    else .error (.WrongTag Tag.AggMessage1 (Tag.ofByte (b.headD 0)))

/-- `SecretAggStepOne::serialize`: tag byte 3, two scalars, two points. -/
def SecretAggStepOne.serialize (c : Ctx) (s : SecretAggStepOne c) : List Nat :=
  3 :: (c.sTo s.private_nonces.1 ++ c.sTo s.private_nonces.2 ++
    c.pTo s.public_nonces.R.1 ++ c.pTo s.public_nonces.R.2)

/-- `SecretAggStepOne::deserialize`: length guard, tag guard, two scalars then
two points. -/
def SecretAggStepOne.deserialize (c : Ctx) (b : List Nat) : Except SerError (SecretAggStepOne c) :=
  if b.length < 1 + 32 + 32 + 32 + 32 then
    .error (.InputTooShort (1 + 32 + 32 + 32 + 32) b.length)
  else
    if Tag.ofByte (b.headD 0) = Tag.SecretAggStepOne then
      match c.sFrom ((b.drop 1).take 32) with
      | none => .error .InvalidScalar
      | some r0 =>
        match c.sFrom ((b.drop 33).take 32) with
        | none => .error .InvalidScalar
        | some r1 =>
          match c.pFrom ((b.drop 65).take 32) with
          | none => .error .InvalidPoint
          | some R0 =>
            match c.pFrom ((b.drop 97).take 32) with
            | none => .error .InvalidPoint
            | some R1 => .ok ⟨(r0, r1), ⟨(R0, R1)⟩⟩
    else .error (.WrongTag Tag.SecretAggStepOne (Tag.ofByte (b.headD 0)))

/-- `PartialSignature::serialize`: tag byte 2 followed by the 64 raw bytes. -/
def PartialSignature.serialize (p : PartialSignature) : List Nat :=
  2 :: p.sig

/-- `PartialSignature::deserialize`: length guard, tag guard, then the 64
payload bytes are copied verbatim — the source performs no point or scalar
validation here. -/
def PartialSignature.deserialize (b : List Nat) : Except SerError PartialSignature :=
  if b.length < 1 + 64 then
    .error (.InputTooShort (1 + 64) b.length)
  else
    if Tag.ofByte (b.headD 0) = Tag.PartialSignature then
      .ok ⟨(b.drop 1).take 64⟩
    else .error (.WrongTag Tag.PartialSignature (Tag.ofByte (b.headD 0)))

/-- `AggregatedKeyInfo::serialize`: tag byte 0, aggregated pubkey, u32
little-endian participant count, participant keys. -/
def AggregatedKeyInfo.serialize (a : AggregatedKeyInfo) : List Nat :=
  0 :: (a.aggregated_pubkey ++ natToLe 4 a.participant_keys.length ++
    a.participant_keys.flatten)

/-- `AggregatedKeyInfo::deserialize`: minimum-length guard, tag guard, count,
second length guard, then the keys. -/
def AggregatedKeyInfo.deserialize (b : List Nat) : Except SerError AggregatedKeyInfo :=
  if b.length < 1 + 32 + 4 then
    .error (.InputTooShort (1 + 32 + 4) b.length)
  else
    if Tag.ofByte (b.headD 0) = Tag.AggregatedKey then
      if b.length < 1 + 32 + 4 + leNat ((b.drop 33).take 4) * 32 then
        .error (.InputTooShort (1 + 32 + 4 + leNat ((b.drop 33).take 4) * 32) b.length)
      else
        .ok ⟨(b.drop 1).take 32,
          (List.range (leNat ((b.drop 33).take 4))).map
            (fun i => (b.drop (37 + i * 32)).take 32)⟩
    else .error (.WrongTag Tag.AggregatedKey (Tag.ofByte (b.headD 0)))

/-- Default method `Serialize::serialize_bs58`. -/
def serialize_bs58 {α : Type} (c : Ctx) (ser : α → List Nat) (x : α) : List Nat :=
  c.b58enc (ser x)

/-- Default method `Serialize::deserialize_bs58`. -/
def deserialize_bs58 {α : Type} (c : Ctx) (des : List Nat → Except SerError α)
    (s : List Nat) : Except SerError α :=
  match c.b58dec s with
  | none => .error .BadBase58
  | some v => des v

/-- Field names carried by the tss error variants (`&'static str` payloads). -/
inductive FieldName where
  | keys
  | signaturesR
  | signaturesS
deriving DecidableEq

/-- Protocol-level error type, the variants of `error.rs` reachable from the
embedded functions.  `MismatchMessages` is the code's name for the spec's
`MismatchedNonces` failure mode; `KeyPairIsNotInKeys` for `FocusNotInList`. -/
inductive TssError where
  | PointDeserializationFailed (field_name : FieldName)
  | ScalarDeserializationFailed (field_name : FieldName)
  | KeyPairIsNotInKeys
  | MismatchMessages
  | InvalidSignature
deriving DecidableEq

/-- Result of running a fallible Rust function: `crash` models a process
abort from an out-of-bounds index, distinct from a returned `Err`. -/
inductive Outcome (ε : Type) (α : Type) where
  | crash
  | err (e : ε)
  | ok (a : α)
deriving DecidableEq

/-- `musig2::PublicKeyAgg`: the aggregated public key together with the
requested participant's MuSig2 coefficient. -/
structure PublicKeyAgg (c : Ctx) where
  agg_public_key : c.P
  musig_coefficient : Nat

instance (c : Ctx) : DecidableEq (PublicKeyAgg c) := fun a b =>
  decidable_of_iff (a.agg_public_key = b.agg_public_key ∧ a.musig_coefficient = b.musig_coefficient)
    (by cases a; cases b; simp)

/-- Sum of the coefficient-weighted participant points, spec section 4.1
step 5: the aggregated key is the sum over the list of `a_i * P_i`. -/
def aggPoint (c : Ctx) (pks : List c.P) : c.P :=
  (pks.map (fun p => c.psmul (c.coeff pks p) p)).foldr c.padd c.pzero

/-- Modelled from the spec: `musig2::PublicKeyAgg::key_aggregation_n` lives in
the multi-party-eddsa dependency, not in this repository's sources.  Per
spec section 4.1 it rejects a focus key that is not in the participant list
(`FocusNotInList`, surfaced by the caller as `KeyPairIsNotInKeys`), computes
per-participant coefficients `a_i` from a hash of the list and the key
(abstracted as `Ctx.coeff`), and returns the weighted sum.  Spec section 8
invariant 2 (single-key identity, asserted of the dependency by the in-repo
test `test_single_key_aggregation`) fixes the singleton case: the aggregated
key of a one-element list is that key itself, with coefficient one. -/
def key_aggregation_n (c : Ctx) (pks : List c.P) (my_pk : c.P) : Option (PublicKeyAgg c) :=
  if my_pk ∈ pks then
    if pks.length = 1 then
      some ⟨pks.headD my_pk, 1⟩
    else
      some ⟨aggPoint c pks, c.coeff pks my_pk⟩
  else
    none

/-- The `convert_keys` closure of `key_agg` in `tss.rs`: decode one 32-byte
pubkey as an ed25519 point. -/
def convertKeys (c : Ctx) (k : List Nat) : Except TssError c.P :=
  match c.pFrom k with
  | some p => .ok p
  | none => .error (.PointDeserializationFailed .keys)

/-- `keys.into_iter().map(convert_keys).collect::<Result<_,_>>()`: convert all
keys, stopping at the first failure. -/
def convertAll (c : Ctx) : List (List Nat) → Except TssError (List c.P)
  | [] => .ok []
  | k :: ks =>
    match convertKeys c k with
    | .error e => .error e
    | .ok p =>
      match convertAll c ks with
      | .error e => .error e
      | .ok ps => .ok (p :: ps)

/-- Wrap the library result the way `key_agg` does:
`.ok_or(Error::KeyPairIsNotInKeys)`. -/
def keyAggRun (c : Ctx) (pts : List c.P) (p : c.P) : Outcome TssError (PublicKeyAgg c) :=
  match key_aggregation_n c pts p with
  | some a => .ok a
  | none => .err .KeyPairIsNotInKeys

/-- `key_agg(keys, key)` from `tss.rs`: convert every key, pick the focus
(`key`) or — mirroring `unwrap_or_else(|| Ok(keys[0].clone()))` — the first
converted key, which index-aborts on an empty list, then run the library
aggregation. -/
def key_agg (c : Ctx) (keys : List (List Nat)) (key : Option (List Nat)) :
    Outcome TssError (PublicKeyAgg c) :=
  match convertAll c keys with
  | .error e => .err e
  | .ok pts =>
    match key with
    | some kb =>
      match convertKeys c kb with
      | .error e => .err e
      | .ok p => keyAggRun c pts p
    | none =>
      match pts with
      | [] => .crash
      | p :: _ => keyAggRun c pts p

/-- Line 67 of `tss.rs`:
`first_messages.into_iter().map(|msg1| msg1.public_nonces.R).collect()` —
every incoming message's nonce pair is collected, with no filtering. -/
def step_two_collected_nonces (c : Ctx) (first_messages : List (AggMessage1 c)) :
    List (c.P × c.P) :=
  first_messages.map (fun m => m.public_nonces.R)

/-- Modelled from the spec: section 4.3 requires the signer to locate its own
entry in `first_msgs` by pubkey equality and to pass only the OTHER
participants' public-nonce pairs to MuSig2 nonce combination. -/
def spec_other_nonces (c : Ctx) (own_pubkey : List Nat)
    (first_messages : List (AggMessage1 c)) : List (c.P × c.P) :=
  (first_messages.filter (fun m => m.sender ≠ own_pubkey)).map (fun m => m.public_nonces.R)

/-- `step_two_token` from `tss.rs`, with the transaction construction and the
Solana signing plumbing abstracted into `sign`: the function collects the
nonce pairs of ALL `first_messages` (no self-exclusion), aggregates the keys
with the signer's own pubkey as focus, and produces the partial signature
bytes from the collected nonces and the aggregated key material. -/
def step_two_token (c : Ctx)
    (sign : List (c.P × c.P) → PublicKeyAgg c → List Nat)
    (self_pubkey : List Nat) (keys : List (List Nat))
    (first_messages : List (AggMessage1 c)) : Outcome TssError PartialSignature :=
  let other_nonces := step_two_collected_nonces c first_messages
  match key_agg c keys (some self_pubkey) with
  | .crash => .crash
  | .err e => .err e
  | .ok aggkey => .ok ⟨sign other_nonces aggkey⟩

/-- `musig2::PartialSignature` as used inside `sign_and_broadcast_token`. -/
structure MusigPartialSig (c : Ctx) where
  R : c.P
  my_partial_s : Nat

/-- Modelled from the spec: `musig2::aggregate_partial_signatures` lives in
the multi-party-eddsa dependency.  Spec section 4.4: the final scalar is the
sum of all partial scalars mod the group order, under the shared nonce `R`. -/
def aggregate_partial_signatures (c : Ctx) (first : MusigPartialSig c)
    (others : List Nat) : MusigPartialSig c :=
  ⟨first.R, (first.my_partial_s + others.sum) % ell⟩

/-- Deserialize the `s` component (bytes 32..) of every remaining partial,
stopping at the first failure, as the `collect::<Result<_,_>>` on line 183
of `tss.rs` does. -/
def deserializeAllS (c : Ctx) : List PartialSignature → Option (List Nat)
  | [] => some []
  | s :: rest =>
    match c.sFrom (s.sig.drop 32) with
    | none => none
    | some v =>
      match deserializeAllS c rest with
      | none => none
      | some vs => some (v :: vs)

/-- `sign_and_broadcast_token` from `tss.rs`.  The transaction rebuild, the
blockhash/signature insertion and the final `tx.verify()` consume only the
final 64 signature bytes (given the fixed transfer parameters), so they are
abstracted into `finalize`.  Faithful control flow: key aggregation first;
then `signatures[1..]` — which index-aborts on an empty vector — is compared
byte-wise against the first signature's R component BEFORE any point or
scalar deserialization of the partials; then R and the scalars are decoded
and summed. -/
def sign_and_broadcast_token (c : Ctx) {τ : Type}
    (finalize : List Nat → Outcome TssError τ)
    (keys : List (List Nat)) (signatures : List PartialSignature) :
    Outcome TssError τ :=
  match key_agg c keys none with
  | .crash => .crash
  | .err e => .err e
  | .ok _aggkey =>
    match signatures with
    | [] => .crash
    | s0 :: rest =>
      if rest.all (fun s => s.sig.take 32 == s0.sig.take 32) then
        match c.pFrom (s0.sig.take 32) with
        | none => .err (.PointDeserializationFailed .signaturesR)
        | some R =>
          match c.sFrom (s0.sig.drop 32) with
          | none => .err (.ScalarDeserializationFailed .signaturesS)
          | some s0v =>
            match deserializeAllS c rest with
            | none => .err (.ScalarDeserializationFailed .signaturesS)
            | some svs =>
              let full := aggregate_partial_signatures c ⟨R, s0v⟩ svs
              finalize (c.pTo full.R ++ c.sTo full.my_partial_s)
      else .err .MismatchMessages

/-- Thirty-two 0xFF bytes: bytes the toy point decoder rejects, standing for a
non-canonical point encoding. -/
def badPointBytes : List Nat := List.replicate 32 255

/-- Toy point type for concrete witnesses: the 32-byte strings other than
`badPointBytes`, each encoding itself. -/
abbrev ToyP := {l : List Nat // l.length = 32 ∧ l ≠ badPointBytes}

/-- Toy point decoder: accepts exactly the 32-byte strings other than
`badPointBytes`, each one denoting itself. -/
def tpFrom : List Nat → Option ToyP := fun b =>
  if h : b.length = 32 ∧ b ≠ badPointBytes then some ⟨b, h⟩ else none

/-- Toy scalar decoder: accepts exactly the canonical 32-byte little-endian
encodings of values below the group order. -/
def tsFrom : List Nat → Option Nat := fun b =>
  if b.length = 32 ∧ leNat b < ell then some (leNat b) else none

/-- Concrete context used by the witnesses: a point codec and scalar codec
satisfying every `GoodCtx` law, with trivial group operations (the protocol
theorems never constrain them) and an identity bs58 layer. -/
def toyCtx : Ctx where
  P := ToyP
  deq := inferInstance
  pFrom := tpFrom
  pTo := Subtype.val
  sFrom := tsFrom
  sTo := fun s => natToLe 32 s
  padd := fun p _ => p
  psmul := fun _ p => p
  pzero := ⟨List.replicate 32 0, by decide⟩
  coeff := fun _ _ => 1
  b58enc := id
  b58dec := some

/-- Concrete 32-byte participant keys for the witnesses. -/
def pkA : List Nat := List.replicate 32 1

def pkB : List Nat := List.replicate 32 2

def ptA : ToyP := ⟨pkA, by decide⟩

def ptB : ToyP := ⟨pkB, by decide⟩

def ptC : ToyP := ⟨List.replicate 32 3, by decide⟩

def ptD : ToyP := ⟨List.replicate 32 4, by decide⟩

def ptE : ToyP := ⟨List.replicate 32 5, by decide⟩

def ptF : ToyP := ⟨List.replicate 32 6, by decide⟩

/-- The signer's own first-round message (sender = `pkA`). -/
def msgSelf : AggMessage1 toyCtx := ⟨⟨(ptC, ptD)⟩, pkA⟩

/-- The other participant's first-round message (sender = `pkB`). -/
def msgOther : AggMessage1 toyCtx := ⟨⟨(ptE, ptF)⟩, pkB⟩

/-- Witness stand-in for the partial-signing plumbing: encodes exactly which
nonce pairs were handed to it. -/
def recordSign (nonces : List (ToyP × ToyP)) (_ : PublicKeyAgg toyCtx) : List Nat :=
  (nonces.map (fun rp => rp.1.val ++ rp.2.val)).flatten

/-- Witness stand-in for the transaction rebuild / verify / broadcast tail of
step three: succeeds and returns the final signature bytes. -/
def finOk : List Nat → Outcome TssError (List Nat) := fun b => .ok b

/-- The first partial used by the step-three witnesses: R = `pkA`,
s value 1. -/
def sigGoodA : PartialSignature := ⟨pkA ++ natToLe 32 1⟩

/-- A second partial agreeing on R, s value 2. -/
def sigGoodB : PartialSignature := ⟨pkA ++ natToLe 32 2⟩

/-- A partial whose R component disagrees with `sigGoodA`. -/
def sigBadR : PartialSignature := ⟨List.replicate 32 7 ++ natToLe 32 2⟩

/-- Decoded value of a partial's s component, with an irrelevant default. -/
def sVal (c : Ctx) (x : PartialSignature) : Nat :=
  (c.sFrom (x.sig.drop 32)).getD 0

theorem length_natToLe (k n : Nat) : (natToLe k n).length = k := by
  induction k generalizing n with
  | zero => rfl
  | succ k ih => simp [natToLe, ih]

theorem leNat_natToLe (k n : Nat) (h : n < 256 ^ k) : leNat (natToLe k n) = n := by
  induction k generalizing n with
  | zero =>
    simp [Nat.pow_zero] at h
    simp [natToLe, leNat, h]
  | succ k ih =>
    have hdiv : n / 256 < 256 ^ k := by
      rw [Nat.div_lt_iff_lt_mul (by norm_num : 0 < 256)]
      calc n < 256 ^ (k + 1) := h
        _ = 256 ^ k * 256 := by rw [Nat.pow_succ]
    simp only [natToLe, leNat, List.foldr_cons]
    have : leNat (natToLe k (n / 256)) = n / 256 := ih (n / 256) hdiv
    simp only [leNat] at this
    rw [this, Nat.mod_add_div]

theorem ell_lt_pow : ell < 256 ^ 32 := by
  norm_num [ell]

theorem tpFrom_val : ∀ p : ToyP, tpFrom p.val = some p := by
  rintro ⟨l, h⟩
  simp only [tpFrom]
  rw [dif_pos h]

theorem tpFrom_inv : ∀ b p, tpFrom b = some p → Subtype.val p = b := by
  intro b p hp
  simp only [tpFrom] at hp
  split at hp
  · cases hp; rfl
  · cases hp

theorem tsFrom_natToLe : ∀ s, s < ell → tsFrom (natToLe 32 s) = some s := by
  intro s hs
  have h32 : (natToLe 32 s).length = 32 := length_natToLe 32 s
  have hle : leNat (natToLe 32 s) = s := leNat_natToLe 32 s (lt_trans hs ell_lt_pow)
  simp only [tsFrom]
  rw [hle, h32]
  simp [hs]

theorem toyCtx_sFrom : toyCtx.sFrom = tsFrom := rfl

theorem toyCtx_sTo : toyCtx.sTo = fun s => natToLe 32 s := rfl

theorem toyCtx_pFrom : toyCtx.pFrom = tpFrom := rfl

theorem toyCtx_pTo : toyCtx.pTo = Subtype.val := rfl

theorem goodCtx_toy : GoodCtx toyCtx := by
  constructor
  · rw [toyCtx_pFrom, toyCtx_pTo]
    exact tpFrom_val
  · rw [toyCtx_pFrom, toyCtx_pTo]
    exact tpFrom_inv
  · rw [toyCtx_pTo]
    exact fun p => p.property.1
  · rw [toyCtx_sFrom, toyCtx_sTo]
    exact tsFrom_natToLe
  · rw [toyCtx_sTo]
    exact fun s _ => length_natToLe 32 s
  · exact fun _ => rfl

/-- C1: REFUTED — code bug.  Spec section 4.3 requires step_two to locate the
signer's own entry in `first_msgs` by pubkey equality and to pass only the
OTHER participants' public-nonce pairs to MuSig2 nonce combination, so that
the partial signature does not depend on whether or where the signer's own
message appears.  Line 67 of `tss.rs` collects the nonce pairs of ALL
incoming messages without ever consulting the sender: at this concrete input
the collected nonce set contains the signer's own pair and differs from the
spec-mandated collection, and the output of `step_two_token` changes when the
signer's own message is removed from `first_messages` (while the
spec-mandated nonce collection is unchanged). -/
theorem c1_step_two_includes_own_nonces :
    step_two_collected_nonces toyCtx [msgOther, msgSelf] ≠
      step_two_collected_nonces toyCtx [msgOther]
    ∧ (ptC, ptD) ∈ step_two_collected_nonces toyCtx [msgOther, msgSelf]
    ∧ spec_other_nonces toyCtx pkA [msgOther, msgSelf] =
        spec_other_nonces toyCtx pkA [msgOther]
    ∧ (ptC, ptD) ∉ spec_other_nonces toyCtx pkA [msgOther, msgSelf]
    ∧ step_two_token toyCtx recordSign pkA [pkA, pkB] [msgOther, msgSelf] ≠
        step_two_token toyCtx recordSign pkA [pkA, pkB] [msgOther] := by
  refine ⟨by decide, by decide, by decide, by decide, by decide⟩

/-- C2: confirmed.  For every non-empty partials list in which some partial's
first 32 bytes (its R component) differ from the first partial's first 32
bytes, step_three fails with the nonce-mismatch error
(`Error::MismatchMessages` in the code, the spec's `MismatchedNonces`).  The
statement quantifies over every context `c`, in particular over contexts
whose point and scalar decoders reject everything, so the failure provably
occurs before any point or scalar deserialization of the partials. -/
theorem c2_mismatched_R_fails (c : Ctx) {τ : Type}
    (finalize : List Nat → Outcome TssError τ) (keys : List (List Nat))
    (agg : PublicKeyAgg c) (hagg : key_agg c keys none = .ok agg)
    (s0 : PartialSignature) (rest : List PartialSignature)
    (hbad : ∃ s ∈ rest, s.sig.take 32 ≠ s0.sig.take 32) :
    sign_and_broadcast_token c finalize keys (s0 :: rest) = .err .MismatchMessages := by
  have hall : rest.all (fun s => s.sig.take 32 == s0.sig.take 32) = false := by
    rcases hbad with ⟨s, hs, hne⟩
    cases hcase : rest.all (fun s => s.sig.take 32 == s0.sig.take 32) with
    | false => rfl
    | true => exact absurd (by simpa using List.all_eq_true.mp hcase s hs) hne
  unfold sign_and_broadcast_token
  simp [hagg, hall]

/-- C2 witness: concrete mismatching partials are rejected. -/
theorem c2_witness :
    sign_and_broadcast_token toyCtx finOk [pkA] [sigGoodA, sigBadR] =
      .err .MismatchMessages :=
  c2_mismatched_R_fails toyCtx finOk [pkA] ⟨ptA, 1⟩ (by decide) sigGoodA [sigBadR]
    ⟨sigBadR, by decide, by decide⟩

/-- C4: REFUTED — code bug.  Spec section 4.4 step 1 requires step_three to
validate `len(partials) ≥ 1` and return a structured error otherwise.  The
code performs no such validation: on an empty partials vector the expression
`signatures[1..]` (line 158 of `tss.rs`) index-aborts the process, modelled
here as the `crash` outcome, distinct from every structured `err`. -/
theorem c4_empty_partials_aborts (c : Ctx) {τ : Type}
    (finalize : List Nat → Outcome TssError τ) (keys : List (List Nat))
    (agg : PublicKeyAgg c) (hagg : key_agg c keys none = .ok agg) :
    sign_and_broadcast_token c finalize keys [] = .crash := by
  unfold sign_and_broadcast_token
  simp [hagg]

/-- C4 witness: the crash is reached at a concrete, otherwise-valid input. -/
theorem c4_witness :
    sign_and_broadcast_token toyCtx finOk [pkA] [] = .crash :=
  c4_empty_partials_aborts toyCtx finOk [pkA] ⟨ptA, 1⟩ (by decide)

/-- C5: confirmed (against the spec-modelled dependency).  For a participant
list of exactly one valid key the aggregation succeeds, with coefficient one,
and the aggregated public key re-encodes to exactly the input bytes. -/
theorem c5_single_key_identity (c : Ctx) (hc : GoodCtx c) (kb : List Nat)
    (p : c.P) (hk : c.pFrom kb = some p) :
    key_agg c [kb] none = .ok ⟨p, 1⟩
    ∧ key_agg c [kb] (some kb) = .ok ⟨p, 1⟩
    ∧ c.pTo p = kb := by
  have hck : convertKeys c kb = .ok p := by
    simp [convertKeys, hk]
  have hconv : convertAll c [kb] = .ok [p] := by
    simp [convertAll, hck]
  have hrun : keyAggRun c [p] p = .ok ⟨p, 1⟩ := by
    simp [keyAggRun, key_aggregation_n]
  refine ⟨?_, ?_, hc.pTo_pFrom kb p hk⟩
  · unfold key_agg
    simp [hconv, hrun]
  · unfold key_agg
    simp [hconv, hck, hrun]

/-- C5 witness: the toy single-key list aggregates to itself. -/
theorem c5_witness :
    key_agg toyCtx [pkA] none = .ok ⟨ptA, 1⟩
    ∧ key_agg toyCtx [pkA] (some pkA) = .ok ⟨ptA, 1⟩
    ∧ toyCtx.pTo ptA = pkA :=
  c5_single_key_identity toyCtx goodCtx_toy pkA ptA (by decide)

theorem convertAll_ok_of_forall (c : Ctx) (L : List (List Nat))
    (h : ∀ k ∈ L, (c.pFrom k).isSome) : ∃ pts, convertAll c L = .ok pts := by
  induction L with
  | nil => exact ⟨[], rfl⟩
  | cons k ks ih =>
    obtain ⟨p, hp⟩ := Option.isSome_iff_exists.mp (h k (by simp))
    obtain ⟨pts, hpts⟩ := ih (fun x hx => h x (by simp [hx]))
    exact ⟨p :: pts, by simp [convertAll, convertKeys, hp, hpts]⟩

theorem convertAll_mem (c : Ctx) (L : List (List Nat)) (pts : List c.P)
    (h : convertAll c L = .ok pts) : ∀ q ∈ pts, ∃ k ∈ L, c.pFrom k = some q := by
  induction L generalizing pts with
  | nil =>
    cases h
    simp
  | cons k ks ih =>
    cases hck : c.pFrom k with
    | none => simp [convertAll, convertKeys, hck] at h
    | some p =>
      cases hcs : convertAll c ks with
      | error e => simp [convertAll, convertKeys, hck, hcs] at h
      | ok ps =>
        have hpts : pts = p :: ps := by
          have := h
          simp [convertAll, convertKeys, hck, hcs] at this
          exact this.symm
        subst hpts
        intro q hq
        rcases List.mem_cons.mp hq with hq | hq
        · exact ⟨k, by simp, hq ▸ hck⟩
        · obtain ⟨k2, hk2, hpk2⟩ := ih ps hcs q hq
          exact ⟨k2, by simp [hk2], hpk2⟩

/-- C8: confirmed.  For a non-empty list of valid keys and a valid focus key
bytewise distinct from every entry, aggregation fails with the
focus-not-in-list error (`Error::KeyPairIsNotInKeys` in the code, the spec's
`FocusNotInList`) and produces no aggregated key. -/
theorem c8_focus_not_in_list (c : Ctx) (hc : GoodCtx c)
    (L : List (List Nat)) (Pb : List Nat) (p : c.P)
    (hL : L ≠ []) (hvalid : ∀ k ∈ L, (c.pFrom k).isSome)
    (hP : c.pFrom Pb = some p) (hnot : Pb ∉ L) :
    key_agg c L (some Pb) = .err .KeyPairIsNotInKeys := by
  obtain ⟨pts, hpts⟩ := convertAll_ok_of_forall c L hvalid
  have hpnot : p ∉ pts := by
    intro hmem
    obtain ⟨k, hkL, hk⟩ := convertAll_mem c L pts hpts p hmem
    have h1 : c.pTo p = Pb := hc.pTo_pFrom Pb p hP
    have h2 : c.pTo p = k := hc.pTo_pFrom k p hk
    have : Pb = k := h1 ▸ h2
    exact hnot (this ▸ hkL)
  have hck : convertKeys c Pb = .ok p := by
    simp [convertKeys, hP]
  unfold key_agg
  simp [hpts, hck, keyAggRun, key_aggregation_n, hpnot]

/-- C8 witness: a fresh key against a one-key list is rejected. -/
theorem c8_witness :
    key_agg toyCtx [pkA] (some pkB) = .err .KeyPairIsNotInKeys :=
  c8_focus_not_in_list toyCtx goodCtx_toy [pkA] pkB ptB (by decide)
    (by decide) (by decide) (by decide)

theorem deserializeAllS_ok (c : Ctx) (l : List PartialSignature)
    (h : ∀ x ∈ l, (c.sFrom (x.sig.drop 32)).isSome) :
    deserializeAllS c l = some (l.map (sVal c)) := by
  induction l with
  | nil => rfl
  | cons x xs ih =>
    obtain ⟨v, hv⟩ := Option.isSome_iff_exists.mp (h x (by simp))
    have hxs := ih (fun y hy => h y (by simp [hy]))
    simp [deserializeAllS, hv, hxs, sVal]

theorem deserializeAllS_some (c : Ctx) (l : List PartialSignature) (vs : List Nat)
    (h : deserializeAllS c l = some vs) :
    (∀ x ∈ l, (c.sFrom (x.sig.drop 32)).isSome) ∧ vs = l.map (sVal c) := by
  induction l generalizing vs with
  | nil =>
    cases h
    simp
  | cons x xs ih =>
    cases hv : c.sFrom (x.sig.drop 32) with
    | none => simp [deserializeAllS, hv] at h
    | some v =>
      cases hxs : deserializeAllS c xs with
      | none => simp [deserializeAllS, hv, hxs] at h
      | some ws =>
        obtain ⟨hall, hws⟩ := ih ws hxs
        have hvs : vs = v :: ws := by
          have := h
          simp [deserializeAllS, hv, hxs] at this
          exact this.symm
        subst hvs
        constructor
        · intro y hy
          rcases List.mem_cons.mp hy with hy | hy
          · rw [hy, hv]; rfl
          · exact hall y hy
        · simp [hws, sVal, hv]

/-- Reduction of step three at a non-empty partials list once key aggregation
has succeeded. -/
theorem stepThree_reduce (c : Ctx) {τ : Type}
    (finalize : List Nat → Outcome TssError τ) (keys : List (List Nat))
    (agg : PublicKeyAgg c) (hagg : key_agg c keys none = .ok agg)
    (s0 : PartialSignature) (rest : List PartialSignature) :
    sign_and_broadcast_token c finalize keys (s0 :: rest) =
      (if rest.all (fun s => s.sig.take 32 == s0.sig.take 32) then
        match c.pFrom (s0.sig.take 32) with
        | none => .err (.PointDeserializationFailed .signaturesR)
        | some R =>
          match c.sFrom (s0.sig.drop 32) with
          | none => .err (.ScalarDeserializationFailed .signaturesS)
          | some s0v =>
            match deserializeAllS c rest with
            | none => .err (.ScalarDeserializationFailed .signaturesS)
            | some svs =>
              finalize (c.pTo R ++ c.sTo ((s0v + svs.sum) % ell))
      else .err .MismatchMessages) := by
  unfold sign_and_broadcast_token
  simp [hagg, aggregate_partial_signatures]

/-- C9: confirmed.  Whenever step_three succeeds on a partials list, it
succeeds on every permutation of that list with the identical result: the R
component is shared by all partials (enforced by the byte-equality check) and
the summed s component is invariant under permutation.  The transaction
rebuild / verification tail (`finalize`) consumes only the final 64 signature
bytes, so the whole outcome coincides. -/
theorem c9_permutation_invariant (c : Ctx) {τ : Type}
    (finalize : List Nat → Outcome TssError τ) (keys : List (List Nat))
    (sigs sigs2 : List PartialSignature) (hperm : sigs.Perm sigs2)
    (t : τ) (hok : sign_and_broadcast_token c finalize keys sigs = .ok t) :
    sign_and_broadcast_token c finalize keys sigs2 = .ok t := by
  cases hagg : key_agg c keys none with
  | crash =>
    unfold sign_and_broadcast_token at hok
    simp [hagg] at hok
  | err e =>
    unfold sign_and_broadcast_token at hok
    simp [hagg] at hok
  | ok agg =>
    cases sigs with
    | nil =>
      unfold sign_and_broadcast_token at hok
      simp [hagg] at hok
    | cons s0 rest =>
      cases sigs2 with
      | nil => exact absurd hperm.length_eq (by simp)
      | cons s1 rest2 =>
        rw [stepThree_reduce c finalize keys agg hagg] at hok
        rw [stepThree_reduce c finalize keys agg hagg]
        cases hall : rest.all (fun s => s.sig.take 32 == s0.sig.take 32) with
        | false => simp [hall] at hok
        | true =>
          rw [hall] at hok
          simp only [if_true] at hok
          cases hpt : c.pFrom (s0.sig.take 32) with
          | none => simp [hpt] at hok
          | some R =>
            rw [hpt] at hok
            cases hs0 : c.sFrom (s0.sig.drop 32) with
            | none => simp [hs0] at hok
            | some v =>
              rw [hs0] at hok
              cases hds : deserializeAllS c rest with
              | none => simp [hds] at hok
              | some vs =>
                rw [hds] at hok
                simp only [] at hok
                obtain ⟨hrest_some, hvs⟩ := deserializeAllS_some c rest vs hds
                have hmemAll : ∀ x ∈ s0 :: rest, x.sig.take 32 = s0.sig.take 32 := by
                  intro x hx
                  rcases List.mem_cons.mp hx with h | h
                  · rw [h]
                  · simpa using List.all_eq_true.mp hall x h
                have hmem2 : ∀ x ∈ s1 :: rest2, x.sig.take 32 = s0.sig.take 32 :=
                  fun x hx => hmemAll x (hperm.mem_iff.mpr hx)
                have hs1R : s1.sig.take 32 = s0.sig.take 32 := hmem2 s1 (by simp)
                have hall2 : rest2.all (fun s => s.sig.take 32 == s1.sig.take 32) = true := by
                  rw [List.all_eq_true]
                  intro x hx
                  have hx0 : x.sig.take 32 = s0.sig.take 32 := hmem2 x (by simp [hx])
                  simp [hx0, hs1R]
                have hall_some : ∀ x ∈ s0 :: rest, (c.sFrom (x.sig.drop 32)).isSome := by
                  intro x hx
                  rcases List.mem_cons.mp hx with h | h
                  · rw [h, hs0]; rfl
                  · exact hrest_some x h
                have hsome2 : ∀ x ∈ s1 :: rest2, (c.sFrom (x.sig.drop 32)).isSome :=
                  fun x hx => hall_some x (hperm.mem_iff.mpr hx)
                obtain ⟨v1, hv1⟩ := Option.isSome_iff_exists.mp (hsome2 s1 (by simp))
                have hds2 : deserializeAllS c rest2 = some (rest2.map (sVal c)) :=
                  deserializeAllS_ok c rest2 (fun x hx => hsome2 x (by simp [hx]))
                have hsum : v1 + (rest2.map (sVal c)).sum = v + vs.sum := by
                  have h1 : v1 = sVal c s1 := by simp [sVal, hv1]
                  have h2 : v = sVal c s0 := by simp [sVal, hs0]
                  calc v1 + (rest2.map (sVal c)).sum
                      = ((s1 :: rest2).map (sVal c)).sum := by simp [h1]
                    _ = ((s0 :: rest).map (sVal c)).sum := ((hperm.map (sVal c)).sum_eq).symm
                    _ = v + vs.sum := by simp [h2, hvs]
                rw [hall2]
                simp only [if_true]
                rw [hs1R, hpt, hv1, hds2]
                simp only []
                rw [hsum]
                exact hok

/-- C9 witness: swapping two concrete agreeing partials leaves the final
signature unchanged. -/
theorem c9_witness :
    sign_and_broadcast_token toyCtx finOk [pkA] [sigGoodB, sigGoodA] =
      .ok (pkA ++ natToLe 32 3) :=
  c9_permutation_invariant toyCtx finOk [pkA] [sigGoodA, sigGoodB]
    [sigGoodB, sigGoodA] (List.Perm.swap sigGoodB sigGoodA []) (pkA ++ natToLe 32 3)
    (by decide)

theorem drop_after (x t : List Nat) (k n : Nat) (hx : x.length = k) :
    (x ++ t).drop (k + n) = t.drop n := by
  rw [← List.drop_drop, List.drop_left' hx]

theorem take_exact (x : List Nat) (hx : x.length = 32) : x.take 32 = x := by
  rw [← hx, List.take_length]

theorem agg1_roundtrip (c : Ctx) (hc : GoodCtx c) (m : AggMessage1 c)
    (hsender : m.sender.length = 32) :
    AggMessage1.deserialize c (AggMessage1.serialize c m) = .ok m := by
  obtain ⟨⟨⟨r0, r1⟩⟩, z⟩ := m
  have hz : z.length = 32 := hsender
  have h0 := hc.pTo_len r0
  have h1 := hc.pTo_len r1
  have hassoc : c.pTo r0 ++ c.pTo r1 ++ z = c.pTo r0 ++ (c.pTo r1 ++ z) :=
    List.append_assoc _ _ _
  have hlen : (AggMessage1.serialize c ⟨⟨(r0, r1)⟩, z⟩).length = 97 := by
    simp [AggMessage1.serialize, h0, h1, hz]
  have t1 : ((AggMessage1.serialize c ⟨⟨(r0, r1)⟩, z⟩).drop 1).take 32 = c.pTo r0 := by
    show (c.pTo r0 ++ c.pTo r1 ++ z).take 32 = c.pTo r0
    rw [hassoc]
    exact List.take_left' h0
  have t2 : ((AggMessage1.serialize c ⟨⟨(r0, r1)⟩, z⟩).drop 33).take 32 = c.pTo r1 := by
    show ((c.pTo r0 ++ c.pTo r1 ++ z).drop 32).take 32 = c.pTo r1
    rw [hassoc, List.drop_left' h0]
    exact List.take_left' h1
  have t3 : ((AggMessage1.serialize c ⟨⟨(r0, r1)⟩, z⟩).drop 65).take 32 = z := by
    show ((c.pTo r0 ++ c.pTo r1 ++ z).drop 64).take 32 = z
    rw [hassoc, show (64 : Nat) = 32 + 32 from rfl, drop_after _ _ _ _ h0,
      List.drop_left' h1]
    exact take_exact z hz
  unfold AggMessage1.deserialize
  rw [hlen, t1, t2, t3, hc.pFrom_pTo, hc.pFrom_pTo]
  have htag : Tag.ofByte ((AggMessage1.serialize c ⟨⟨(r0, r1)⟩, z⟩).headD 0) =
      Tag.AggMessage1 := rfl
  rw [htag]
  simp

theorem secret_roundtrip (c : Ctx) (hc : GoodCtx c) (s : SecretAggStepOne c)
    (ha : s.private_nonces.1 < ell) (hb : s.private_nonces.2 < ell) :
    SecretAggStepOne.deserialize c (SecretAggStepOne.serialize c s) = .ok s := by
  obtain ⟨⟨a, b⟩, ⟨⟨R0, R1⟩⟩⟩ := s
  have ha2 : a < ell := ha
  have hb2 : b < ell := hb
  have hsa := hc.sTo_len a ha2
  have hsb := hc.sTo_len b hb2
  have h0 := hc.pTo_len R0
  have h1 := hc.pTo_len R1
  have hassoc : c.sTo a ++ c.sTo b ++ c.pTo R0 ++ c.pTo R1 =
      c.sTo a ++ (c.sTo b ++ (c.pTo R0 ++ c.pTo R1)) := by
    rw [List.append_assoc, List.append_assoc]
  have hlen : (SecretAggStepOne.serialize c ⟨(a, b), ⟨(R0, R1)⟩⟩).length = 129 := by
    simp [SecretAggStepOne.serialize, hsa, hsb, h0, h1]
  have t1 : ((SecretAggStepOne.serialize c ⟨(a, b), ⟨(R0, R1)⟩⟩).drop 1).take 32 = c.sTo a := by
    show (c.sTo a ++ c.sTo b ++ c.pTo R0 ++ c.pTo R1).take 32 = c.sTo a
    rw [hassoc]
    exact List.take_left' hsa
  have t2 : ((SecretAggStepOne.serialize c ⟨(a, b), ⟨(R0, R1)⟩⟩).drop 33).take 32 = c.sTo b := by
    show ((c.sTo a ++ c.sTo b ++ c.pTo R0 ++ c.pTo R1).drop 32).take 32 = c.sTo b
    rw [hassoc, List.drop_left' hsa]
    exact List.take_left' hsb
  have t3 : ((SecretAggStepOne.serialize c ⟨(a, b), ⟨(R0, R1)⟩⟩).drop 65).take 32 = c.pTo R0 := by
    show ((c.sTo a ++ c.sTo b ++ c.pTo R0 ++ c.pTo R1).drop 64).take 32 = c.pTo R0
    rw [hassoc, show (64 : Nat) = 32 + 32 from rfl, drop_after _ _ _ _ hsa,
      List.drop_left' hsb]
    exact List.take_left' h0
  have t4 : ((SecretAggStepOne.serialize c ⟨(a, b), ⟨(R0, R1)⟩⟩).drop 97).take 32 = c.pTo R1 := by
    show ((c.sTo a ++ c.sTo b ++ c.pTo R0 ++ c.pTo R1).drop 96).take 32 = c.pTo R1
    rw [hassoc, show (96 : Nat) = 32 + 64 from rfl, drop_after _ _ _ _ hsa,
      show (64 : Nat) = 32 + 32 from rfl, drop_after _ _ _ _ hsb, List.drop_left' h0]
    exact take_exact _ h1
  unfold SecretAggStepOne.deserialize
  rw [hlen, t1, t2, t3, t4, hc.sFrom_sTo a ha2, hc.sFrom_sTo b hb2,
    hc.pFrom_pTo, hc.pFrom_pTo]
  have htag : Tag.ofByte ((SecretAggStepOne.serialize c ⟨(a, b), ⟨(R0, R1)⟩⟩).headD 0) =
      Tag.SecretAggStepOne := rfl
  rw [htag]
  simp

theorem psig_roundtrip (p : PartialSignature) (hp : p.sig.length = 64) :
    PartialSignature.deserialize (PartialSignature.serialize p) = .ok p := by
  obtain ⟨s⟩ := p
  have hs : s.length = 64 := hp
  have hlen : (PartialSignature.serialize ⟨s⟩).length = 65 := by
    simp [PartialSignature.serialize, hs]
  have t : ((PartialSignature.serialize ⟨s⟩).drop 1).take 64 = s := by
    show s.take 64 = s
    rw [← hs, List.take_length]
  unfold PartialSignature.deserialize
  rw [hlen, t]
  have htag : Tag.ofByte ((PartialSignature.serialize ⟨s⟩).headD 0) =
      Tag.PartialSignature := rfl
  rw [htag]
  simp

theorem flatten_length_32 (ks : List (List Nat)) (h : ∀ k ∈ ks, k.length = 32) :
    ks.flatten.length = ks.length * 32 := by
  induction ks with
  | nil => simp
  | cons k t ih =>
    have hk : k.length = 32 := h k (by simp)
    have iht := ih (fun x hx => h x (by simp [hx]))
    rw [List.flatten_cons, List.length_append, hk, iht, List.length_cons]
    ring

theorem chunks_flatten (ks : List (List Nat)) (h : ∀ k ∈ ks, k.length = 32) :
    (List.range ks.length).map (fun i => (ks.flatten.drop (i * 32)).take 32) = ks := by
  induction ks with
  | nil => simp
  | cons k t ih =>
    have hk : k.length = 32 := h k (by simp)
    have iht := ih (fun x hx => h x (by simp [hx]))
    have hcomp : ∀ i ∈ List.range t.length,
        ((fun i => (((k :: t).flatten).drop (i * 32)).take 32) ∘ Nat.succ) i =
        (fun i => ((t.flatten).drop (i * 32)).take 32) i := by
      intro i _
      show (((k :: t).flatten).drop ((i + 1) * 32)).take 32 =
        ((t.flatten).drop (i * 32)).take 32
      rw [List.flatten_cons, show (i + 1) * 32 = 32 + i * 32 from by ring,
        drop_after _ _ _ _ hk]
    have hhead : (((k :: t).flatten).drop (0 * 32)).take 32 = k := by
      rw [Nat.zero_mul, List.drop_zero, List.flatten_cons]
      exact List.take_left' hk
    rw [List.length_cons, List.range_succ_eq_map, List.map_cons, List.map_map,
      List.map_congr_left hcomp, iht, hhead]

theorem agginfo_roundtrip (a : AggregatedKeyInfo)
    (hpk : a.aggregated_pubkey.length = 32)
    (hks : ∀ k ∈ a.participant_keys, k.length = 32)
    (hn : a.participant_keys.length < 2 ^ 32) :
    AggregatedKeyInfo.deserialize (AggregatedKeyInfo.serialize a) = .ok a := by
  obtain ⟨pk, ks⟩ := a
  have hpk32 : pk.length = 32 := hpk
  have hn2 : ks.length < 2 ^ 32 := hn
  have hflat : ks.flatten.length = ks.length * 32 := flatten_length_32 ks hks
  have hle4 : (natToLe 4 ks.length).length = 4 := length_natToLe 4 ks.length
  have hassoc : pk ++ natToLe 4 ks.length ++ ks.flatten =
      pk ++ (natToLe 4 ks.length ++ ks.flatten) := List.append_assoc _ _ _
  have hlen : (AggregatedKeyInfo.serialize ⟨pk, ks⟩).length = 37 + ks.length * 32 := by
    simp [AggregatedKeyInfo.serialize, hpk32, hle4, hflat]
    ring
  have hnum : ((AggregatedKeyInfo.serialize ⟨pk, ks⟩).drop 33).take 4 =
      natToLe 4 ks.length := by
    show ((pk ++ natToLe 4 ks.length ++ ks.flatten).drop 32).take 4 = _
    rw [hassoc, List.drop_left' hpk32]
    exact List.take_left' hle4
  have hpkslice : ((AggregatedKeyInfo.serialize ⟨pk, ks⟩).drop 1).take 32 = pk := by
    show (pk ++ natToLe 4 ks.length ++ ks.flatten).take 32 = pk
    rw [hassoc]
    exact List.take_left' hpk32
  have hnumval : leNat (natToLe 4 ks.length) = ks.length := by
    refine leNat_natToLe 4 ks.length ?_
    rw [show (256 : Nat) ^ 4 = 2 ^ 32 from by norm_num]
    exact hn2
  have hchunk : ∀ i, ((AggregatedKeyInfo.serialize ⟨pk, ks⟩).drop (37 + i * 32)).take 32 =
      (ks.flatten.drop (i * 32)).take 32 := by
    intro i
    rw [show AggregatedKeyInfo.serialize ⟨pk, ks⟩ =
      0 :: (pk ++ natToLe 4 ks.length ++ ks.flatten) from rfl]
    rw [show 37 + i * 32 = (36 + i * 32) + 1 from by ring, List.drop_succ_cons]
    rw [hassoc, show 36 + i * 32 = 32 + (4 + i * 32) from by ring,
      drop_after _ _ _ _ hpk32, drop_after _ _ _ _ hle4]
  unfold AggregatedKeyInfo.deserialize
  simp only [hlen, hnum, hnumval, hpkslice]
  rw [if_neg (by omega)]
  rw [if_pos (show Tag.ofByte ((AggregatedKeyInfo.serialize ⟨pk, ks⟩).headD 0) =
    Tag.AggregatedKey from rfl)]
  rw [if_neg (by omega)]
  rw [List.map_congr_left (fun i _ => hchunk i), chunks_flatten ks hks]

/-- C6: confirmed.  For every artifact type and every valid instance, byte
deserialization inverts serialization, and likewise through the base58
string forms (valid: 32-byte pubkey fields, canonical scalars, 64-byte
signature payload, and a participant count below 2^32 — the count is
serialized as a u32). -/
theorem c6_codec_roundtrip (c : Ctx) (hc : GoodCtx c) :
    (∀ m : AggMessage1 c, m.sender.length = 32 →
      AggMessage1.deserialize c (AggMessage1.serialize c m) = .ok m
      ∧ deserialize_bs58 c (AggMessage1.deserialize c)
          (serialize_bs58 c (AggMessage1.serialize c) m) = .ok m)
    ∧ (∀ s : SecretAggStepOne c, s.private_nonces.1 < ell → s.private_nonces.2 < ell →
      SecretAggStepOne.deserialize c (SecretAggStepOne.serialize c s) = .ok s
      ∧ deserialize_bs58 c (SecretAggStepOne.deserialize c)
          (serialize_bs58 c (SecretAggStepOne.serialize c) s) = .ok s)
    ∧ (∀ p : PartialSignature, p.sig.length = 64 →
      PartialSignature.deserialize (PartialSignature.serialize p) = .ok p
      ∧ deserialize_bs58 c PartialSignature.deserialize
          (serialize_bs58 c PartialSignature.serialize p) = .ok p)
    ∧ (∀ a : AggregatedKeyInfo, a.aggregated_pubkey.length = 32 →
      (∀ k ∈ a.participant_keys, k.length = 32) → a.participant_keys.length < 2 ^ 32 →
      AggregatedKeyInfo.deserialize (AggregatedKeyInfo.serialize a) = .ok a
      ∧ deserialize_bs58 c AggregatedKeyInfo.deserialize
          (serialize_bs58 c AggregatedKeyInfo.serialize a) = .ok a) := by
  have hb : ∀ {α : Type} (des : List Nat → Except SerError α) (ser : α → List Nat) (x : α),
      des (ser x) = .ok x → deserialize_bs58 c des (serialize_bs58 c ser x) = .ok x := by
    intro α des ser x h
    unfold deserialize_bs58 serialize_bs58
    rw [hc.b58_round]
    exact h
  refine ⟨fun m hm => ⟨agg1_roundtrip c hc m hm, hb _ _ _ (agg1_roundtrip c hc m hm)⟩,
    fun s h1 h2 => ⟨secret_roundtrip c hc s h1 h2, hb _ _ _ (secret_roundtrip c hc s h1 h2)⟩,
    fun p hp => ⟨psig_roundtrip p hp, hb _ _ _ (psig_roundtrip p hp)⟩,
    fun a h1 h2 h3 => ⟨agginfo_roundtrip a h1 h2 h3, hb _ _ _ (agginfo_roundtrip a h1 h2 h3)⟩⟩

/-- C6 witness: the round trip evaluated at concrete toy instances of each
artifact type. -/
theorem c6_witness :
    AggMessage1.deserialize toyCtx (AggMessage1.serialize toyCtx msgSelf) = .ok msgSelf
    ∧ SecretAggStepOne.deserialize toyCtx
        (SecretAggStepOne.serialize toyCtx ⟨(1, 2), ⟨(ptE, ptF)⟩⟩) =
        .ok ⟨(1, 2), ⟨(ptE, ptF)⟩⟩
    ∧ PartialSignature.deserialize (PartialSignature.serialize sigGoodA) = .ok sigGoodA
    ∧ AggregatedKeyInfo.deserialize (AggregatedKeyInfo.serialize ⟨pkA, [pkA, pkB]⟩) =
        .ok ⟨pkA, [pkA, pkB]⟩ :=
  ⟨((c6_codec_roundtrip toyCtx goodCtx_toy).1 msgSelf (by decide)).1,
   ((c6_codec_roundtrip toyCtx goodCtx_toy).2.1 ⟨(1, 2), ⟨(ptE, ptF)⟩⟩
      (by norm_num [ell]) (by norm_num [ell])).1,
   ((c6_codec_roundtrip toyCtx goodCtx_toy).2.2.1 sigGoodA (by decide)).1,
   ((c6_codec_roundtrip toyCtx goodCtx_toy).2.2.2 ⟨pkA, [pkA, pkB]⟩
      (by decide) (by decide) (by norm_num)).1⟩

theorem agg1_serialize_head (c : Ctx) (m : AggMessage1 c) :
    Tag.ofByte ((AggMessage1.serialize c m).headD 0) = Tag.AggMessage1 := rfl

theorem secret_serialize_head (c : Ctx) (s : SecretAggStepOne c) :
    Tag.ofByte ((SecretAggStepOne.serialize c s).headD 0) = Tag.SecretAggStepOne := rfl

theorem psig_serialize_head (p : PartialSignature) :
    Tag.ofByte ((PartialSignature.serialize p).headD 0) = Tag.PartialSignature := rfl

theorem agginfo_serialize_head (a : AggregatedKeyInfo) :
    Tag.ofByte ((AggregatedKeyInfo.serialize a).headD 0) = Tag.AggregatedKey := rfl

theorem agg1_serialize_length (c : Ctx) (hc : GoodCtx c) (m : AggMessage1 c)
    (hm : m.sender.length = 32) : (AggMessage1.serialize c m).length = 97 := by
  simp [AggMessage1.serialize, hc.pTo_len, hm]

theorem secret_serialize_length (c : Ctx) (hc : GoodCtx c) (s : SecretAggStepOne c)
    (h1 : s.private_nonces.1 < ell) (h2 : s.private_nonces.2 < ell) :
    (SecretAggStepOne.serialize c s).length = 129 := by
  simp [SecretAggStepOne.serialize, hc.pTo_len, hc.sTo_len _ h1, hc.sTo_len _ h2]

theorem psig_serialize_length (p : PartialSignature) (hp : p.sig.length = 64) :
    (PartialSignature.serialize p).length = 65 := by
  simp [PartialSignature.serialize, hp]

theorem agginfo_serialize_length (a : AggregatedKeyInfo)
    (hpk : a.aggregated_pubkey.length = 32) (hks : ∀ k ∈ a.participant_keys, k.length = 32) :
    (AggregatedKeyInfo.serialize a).length = 37 + a.participant_keys.length * 32 := by
  simp [AggregatedKeyInfo.serialize, hpk, length_natToLe,
    flatten_length_32 a.participant_keys hks]
  ring

theorem agg1_wrongTag (c : Ctx) (b : List Nat) (t : Tag) (hlen : 97 ≤ b.length)
    (ht : Tag.ofByte (b.headD 0) = t) (hne : t ≠ Tag.AggMessage1) :
    AggMessage1.deserialize c b = .error (.WrongTag Tag.AggMessage1 t) := by
  have hl : ¬ b.length < 1 + 32 + 32 + 32 := by omega
  unfold AggMessage1.deserialize
  rw [if_neg hl, ht, if_neg hne]

theorem secret_wrongTag (c : Ctx) (b : List Nat) (t : Tag) (hlen : 129 ≤ b.length)
    (ht : Tag.ofByte (b.headD 0) = t) (hne : t ≠ Tag.SecretAggStepOne) :
    SecretAggStepOne.deserialize c b = .error (.WrongTag Tag.SecretAggStepOne t) := by
  have hl : ¬ b.length < 1 + 32 + 32 + 32 + 32 := by omega
  unfold SecretAggStepOne.deserialize
  rw [if_neg hl, ht, if_neg hne]

theorem psig_wrongTag (b : List Nat) (t : Tag) (hlen : 65 ≤ b.length)
    (ht : Tag.ofByte (b.headD 0) = t) (hne : t ≠ Tag.PartialSignature) :
    PartialSignature.deserialize b = .error (.WrongTag Tag.PartialSignature t) := by
  have hl : ¬ b.length < 1 + 64 := by omega
  unfold PartialSignature.deserialize
  rw [if_neg hl, ht, if_neg hne]

theorem agginfo_wrongTag (b : List Nat) (t : Tag) (hlen : 37 ≤ b.length)
    (ht : Tag.ofByte (b.headD 0) = t) (hne : t ≠ Tag.AggregatedKey) :
    AggregatedKeyInfo.deserialize b = .error (.WrongTag Tag.AggregatedKey t) := by
  have hl : ¬ b.length < 1 + 32 + 4 := by omega
  unfold AggregatedKeyInfo.deserialize
  rw [if_neg hl, ht, if_neg hne]

/-- C7: confirmed.  Decoding the encoding of one artifact type as a different
type fails with `WrongTag` carrying the expected and the found tag, whenever
the input meets the decoder's minimum length; in particular a valid
AggMessage1 encoding handed to PartialSignature decoding fails with
`WrongTag` expected PartialSignature (2), found AggMessage1 (1).  The three
cross-decodings whose source encoding can be shorter than the target minimum
carry the length condition the claim states (participant counts of at least
1, 2 and 3 make an AggregatedKeyInfo encoding long enough for the
PartialSignature, AggMessage1 and SecretAggStepOne decoders). -/
theorem c7_tag_discrimination (c : Ctx) (hc : GoodCtx c) :
    (∀ m : AggMessage1 c, m.sender.length = 32 →
      PartialSignature.deserialize (AggMessage1.serialize c m) =
        .error (.WrongTag Tag.PartialSignature Tag.AggMessage1)
      ∧ AggregatedKeyInfo.deserialize (AggMessage1.serialize c m) =
        .error (.WrongTag Tag.AggregatedKey Tag.AggMessage1))
    ∧ (∀ s : SecretAggStepOne c, s.private_nonces.1 < ell → s.private_nonces.2 < ell →
      AggMessage1.deserialize c (SecretAggStepOne.serialize c s) =
        .error (.WrongTag Tag.AggMessage1 Tag.SecretAggStepOne)
      ∧ PartialSignature.deserialize (SecretAggStepOne.serialize c s) =
        .error (.WrongTag Tag.PartialSignature Tag.SecretAggStepOne)
      ∧ AggregatedKeyInfo.deserialize (SecretAggStepOne.serialize c s) =
        .error (.WrongTag Tag.AggregatedKey Tag.SecretAggStepOne))
    ∧ (∀ p : PartialSignature, p.sig.length = 64 →
      AggregatedKeyInfo.deserialize (PartialSignature.serialize p) =
        .error (.WrongTag Tag.AggregatedKey Tag.PartialSignature))
    ∧ (∀ a : AggregatedKeyInfo, a.aggregated_pubkey.length = 32 →
      (∀ k ∈ a.participant_keys, k.length = 32) →
      (1 ≤ a.participant_keys.length →
        PartialSignature.deserialize (AggregatedKeyInfo.serialize a) =
          .error (.WrongTag Tag.PartialSignature Tag.AggregatedKey))
      ∧ (2 ≤ a.participant_keys.length →
        AggMessage1.deserialize c (AggregatedKeyInfo.serialize a) =
          .error (.WrongTag Tag.AggMessage1 Tag.AggregatedKey))
      ∧ (3 ≤ a.participant_keys.length →
        SecretAggStepOne.deserialize c (AggregatedKeyInfo.serialize a) =
          .error (.WrongTag Tag.SecretAggStepOne Tag.AggregatedKey))) := by
  refine ⟨fun m hm => ⟨?_, ?_⟩, fun s h1 h2 => ⟨?_, ?_, ?_⟩, fun p hp => ?_,
    fun a h1 h2 => ⟨fun hn => ?_, fun hn => ?_, fun hn => ?_⟩⟩
  · exact psig_wrongTag _ _ (by rw [agg1_serialize_length c hc m hm]; norm_num)
      (agg1_serialize_head c m) (by decide)
  · exact agginfo_wrongTag _ _ (by rw [agg1_serialize_length c hc m hm]; norm_num)
      (agg1_serialize_head c m) (by decide)
  · exact agg1_wrongTag c _ _ (by rw [secret_serialize_length c hc s h1 h2]; norm_num)
      (secret_serialize_head c s) (by decide)
  · exact psig_wrongTag _ _ (by rw [secret_serialize_length c hc s h1 h2]; norm_num)
      (secret_serialize_head c s) (by decide)
  · exact agginfo_wrongTag _ _ (by rw [secret_serialize_length c hc s h1 h2]; norm_num)
      (secret_serialize_head c s) (by decide)
  · exact agginfo_wrongTag _ _ (by rw [psig_serialize_length p hp]; norm_num)
      (psig_serialize_head p) (by decide)
  · exact psig_wrongTag _ _ (by rw [agginfo_serialize_length a h1 h2]; omega)
      (agginfo_serialize_head a) (by decide)
  · exact agg1_wrongTag c _ _ (by rw [agginfo_serialize_length a h1 h2]; omega)
      (agginfo_serialize_head a) (by decide)
  · exact secret_wrongTag c _ _ (by rw [agginfo_serialize_length a h1 h2]; omega)
      (agginfo_serialize_head a) (by decide)

/-- C7 witness: the S3 scenario at a concrete AggMessage1, plus one
cross-decoding in each remaining direction. -/
theorem c7_witness :
    PartialSignature.deserialize (AggMessage1.serialize toyCtx msgSelf) =
      .error (.WrongTag Tag.PartialSignature Tag.AggMessage1)
    ∧ AggMessage1.deserialize toyCtx
        (SecretAggStepOne.serialize toyCtx ⟨(1, 2), ⟨(ptE, ptF)⟩⟩) =
      .error (.WrongTag Tag.AggMessage1 Tag.SecretAggStepOne)
    ∧ AggregatedKeyInfo.deserialize (PartialSignature.serialize sigGoodA) =
      .error (.WrongTag Tag.AggregatedKey Tag.PartialSignature)
    ∧ SecretAggStepOne.deserialize toyCtx
        (AggregatedKeyInfo.serialize ⟨pkA, [pkA, pkB, pkB]⟩) =
      .error (.WrongTag Tag.SecretAggStepOne Tag.AggregatedKey) :=
  ⟨((c7_tag_discrimination toyCtx goodCtx_toy).1 msgSelf (by decide)).1,
   ((c7_tag_discrimination toyCtx goodCtx_toy).2.1 ⟨(1, 2), ⟨(ptE, ptF)⟩⟩
      (by norm_num [ell]) (by norm_num [ell])).1,
   (c7_tag_discrimination toyCtx goodCtx_toy).2.2.1 sigGoodA (by decide),
   ((c7_tag_discrimination toyCtx goodCtx_toy).2.2.2 ⟨pkA, [pkA, pkB, pkB]⟩
      (by decide) (by decide)).2.2 (by decide)⟩

theorem drop_append_le (b e : List Nat) (k : Nat) (h : k ≤ b.length) :
    (b ++ e).drop k = b.drop k ++ e := by
  induction b generalizing k with
  | nil =>
    simp at h
    simp [h]
  | cons a t ih =>
    cases k with
    | zero => simp
    | succ k =>
      simp only [List.cons_append, List.drop_succ_cons]
      exact ih k (by simpa using h)

theorem take_append_le (x e : List Nat) (n : Nat) (h : n ≤ x.length) :
    (x ++ e).take n = x.take n := by
  induction x generalizing n with
  | nil =>
    simp at h
    simp [h]
  | cons a t ih =>
    cases n with
    | zero => simp
    | succ n =>
      simp only [List.cons_append, List.take_succ_cons]
      rw [ih n (by simpa using h)]

theorem slice_stable (b e : List Nat) (k n : Nat) (h : k + n ≤ b.length) :
    ((b ++ e).drop k).take n = (b.drop k).take n := by
  rw [drop_append_le b e k (by omega)]
  exact take_append_le _ e n (by rw [List.length_drop]; omega)

theorem headD_append (b e : List Nat) (hb : b ≠ []) : (b ++ e).headD 0 = b.headD 0 := by
  cases b with
  | nil => exact absurd rfl hb
  | cons a t => rfl

theorem agg1_append_stable (c : Ctx) (b e : List Nat) (m : AggMessage1 c)
    (h : AggMessage1.deserialize c b = .ok m) :
    AggMessage1.deserialize c (b ++ e) = .ok m := by
  unfold AggMessage1.deserialize at h ⊢
  by_cases hlen : b.length < 1 + 32 + 32 + 32
  · rw [if_pos hlen] at h
    simp at h
  · rw [if_neg hlen] at h
    have hge : 97 ≤ b.length := by omega
    have hlen2 : ¬ (b ++ e).length < 1 + 32 + 32 + 32 := by
      rw [List.length_append]
      omega
    have hne : b ≠ [] := by
      intro hb
      rw [hb] at hge
      simp at hge
    rw [if_neg hlen2, headD_append b e hne, slice_stable b e 1 32 (by omega),
      slice_stable b e 33 32 (by omega), slice_stable b e 65 32 (by omega)]
    exact h

theorem secret_append_stable (c : Ctx) (b e : List Nat) (s : SecretAggStepOne c)
    (h : SecretAggStepOne.deserialize c b = .ok s) :
    SecretAggStepOne.deserialize c (b ++ e) = .ok s := by
  unfold SecretAggStepOne.deserialize at h ⊢
  by_cases hlen : b.length < 1 + 32 + 32 + 32 + 32
  · rw [if_pos hlen] at h
    simp at h
  · rw [if_neg hlen] at h
    have hge : 129 ≤ b.length := by omega
    have hlen2 : ¬ (b ++ e).length < 1 + 32 + 32 + 32 + 32 := by
      rw [List.length_append]
      omega
    have hne : b ≠ [] := by
      intro hb
      rw [hb] at hge
      simp at hge
    rw [if_neg hlen2, headD_append b e hne, slice_stable b e 1 32 (by omega),
      slice_stable b e 33 32 (by omega), slice_stable b e 65 32 (by omega),
      slice_stable b e 97 32 (by omega)]
    exact h

theorem psig_append_stable (b e : List Nat) (p : PartialSignature)
    (h : PartialSignature.deserialize b = .ok p) :
    PartialSignature.deserialize (b ++ e) = .ok p := by
  unfold PartialSignature.deserialize at h ⊢
  by_cases hlen : b.length < 1 + 64
  · rw [if_pos hlen] at h
    simp at h
  · rw [if_neg hlen] at h
    have hge : 65 ≤ b.length := by omega
    have hlen2 : ¬ (b ++ e).length < 1 + 64 := by
      rw [List.length_append]
      omega
    have hne : b ≠ [] := by
      intro hb
      rw [hb] at hge
      simp at hge
    rw [if_neg hlen2, headD_append b e hne, slice_stable b e 1 64 (by omega)]
    exact h

theorem agginfo_append_stable (b e : List Nat) (a : AggregatedKeyInfo)
    (h : AggregatedKeyInfo.deserialize b = .ok a) :
    AggregatedKeyInfo.deserialize (b ++ e) = .ok a := by
  unfold AggregatedKeyInfo.deserialize at h ⊢
  by_cases hlen : b.length < 1 + 32 + 4
  · rw [if_pos hlen] at h
    simp at h
  · rw [if_neg hlen] at h
    have hge : 37 ≤ b.length := by omega
    have hlen2 : ¬ (b ++ e).length < 1 + 32 + 4 := by
      rw [List.length_append]
      omega
    have hne : b ≠ [] := by
      intro hb
      rw [hb] at hge
      simp at hge
    rw [if_neg hlen2, headD_append b e hne, slice_stable b e 33 4 (by omega)]
    by_cases htag : Tag.ofByte (b.headD 0) = Tag.AggregatedKey
    · rw [if_pos htag] at h ⊢
      by_cases hg2 : b.length < 1 + 32 + 4 + leNat ((b.drop 33).take 4) * 32
      · rw [if_pos hg2] at h
        simp at h
      · rw [if_neg hg2] at h
        have hg2b : ¬ (b ++ e).length < 1 + 32 + 4 + leNat ((b.drop 33).take 4) * 32 := by
          rw [List.length_append]
          omega
        rw [if_neg hg2b, slice_stable b e 1 32 (by omega)]
        rw [List.map_congr_left (fun i hi =>
          slice_stable b e (37 + i * 32) 32 (by
            have hi2 := List.mem_range.mp hi
            omega))]
        exact h
    · rw [if_neg htag] at h
      simp at h

/-- C10: confirmed.  Every decoder guards only a minimum length with a strict
less-than comparison and then reads a fixed-offset prefix of the input, so on
any byte string on which decoding succeeds, appending arbitrary trailing
bytes still decodes successfully to the very same value: trailing garbage is
silently ignored, decoding is not injective on accepted inputs, and appending
bytes to a valid encoding never produces an error. -/
theorem c10_trailing_bytes_ignored (c : Ctx) :
    (∀ b e (m : AggMessage1 c), AggMessage1.deserialize c b = .ok m →
      AggMessage1.deserialize c (b ++ e) = .ok m)
    ∧ (∀ b e (s : SecretAggStepOne c), SecretAggStepOne.deserialize c b = .ok s →
      SecretAggStepOne.deserialize c (b ++ e) = .ok s)
    ∧ (∀ b e (p : PartialSignature), PartialSignature.deserialize b = .ok p →
      PartialSignature.deserialize (b ++ e) = .ok p)
    ∧ (∀ b e (a : AggregatedKeyInfo), AggregatedKeyInfo.deserialize b = .ok a →
      AggregatedKeyInfo.deserialize (b ++ e) = .ok a) :=
  ⟨fun b e m h => agg1_append_stable c b e m h,
   fun b e s h => secret_append_stable c b e s h,
   fun b e p h => psig_append_stable b e p h,
   fun b e a h => agginfo_append_stable b e a h⟩

/-- C10 witness: appending a garbage byte to concrete valid encodings leaves
every decoder's result unchanged. -/
theorem c10_witness :
    AggMessage1.deserialize toyCtx (AggMessage1.serialize toyCtx msgSelf ++ [9]) =
      .ok msgSelf
    ∧ PartialSignature.deserialize (PartialSignature.serialize sigGoodA ++ [9]) =
      .ok sigGoodA
    ∧ AggregatedKeyInfo.deserialize
        (AggregatedKeyInfo.serialize ⟨pkA, [pkA, pkB]⟩ ++ [9]) = .ok ⟨pkA, [pkA, pkB]⟩ :=
  ⟨(c10_trailing_bytes_ignored toyCtx).1 _ [9] msgSelf (by rfl),
   (c10_trailing_bytes_ignored toyCtx).2.2.1 _ [9] sigGoodA (by rfl),
   (c10_trailing_bytes_ignored toyCtx).2.2.2 _ [9] ⟨pkA, [pkA, pkB]⟩ (by rfl)⟩

/-- C3 counterexample: the claim fails for PartialSignature.
`PartialSignature::deserialize` copies its 64-byte payload verbatim and
performs no point or scalar validation at all.  Under the toy context — which
satisfies every codec law the spec states (`GoodCtx`) and rejects the
32-byte string of 0xFF bytes as a point — a tag-2 input whose R field is
exactly that rejected string still decodes successfully. -/
theorem c3_counterexample :
    GoodCtx toyCtx
    ∧ toyCtx.pFrom (List.replicate 32 255) = none
    ∧ PartialSignature.deserialize (2 :: (List.replicate 32 255 ++ List.replicate 32 0)) =
        .ok ⟨List.replicate 32 255 ++ List.replicate 32 0⟩ :=
  ⟨goodCtx_toy, by decide, by rfl⟩

/-- C3 amended: point and scalar validation happens in the decoders that
deserialize points and scalars — AggMessage1 (two points) and
SecretAggStepOne (two scalars, then two points) reject an invalid field with
`InvalidPoint` respectively `InvalidScalar` — while
`PartialSignature::deserialize` performs no such validation: any input of at
least 65 bytes carrying tag 2 decodes successfully to its raw 64-byte
payload, the point and scalar checks being deferred to step_three. -/
theorem c3_amended_validation (c : Ctx) :
    (∀ b, ¬ b.length < 1 + 32 + 32 + 32 → Tag.ofByte (b.headD 0) = Tag.AggMessage1 →
      c.pFrom ((b.drop 1).take 32) = none →
      AggMessage1.deserialize c b = .error .InvalidPoint)
    ∧ (∀ b r0, ¬ b.length < 1 + 32 + 32 + 32 → Tag.ofByte (b.headD 0) = Tag.AggMessage1 →
      c.pFrom ((b.drop 1).take 32) = some r0 →
      c.pFrom ((b.drop 33).take 32) = none →
      AggMessage1.deserialize c b = .error .InvalidPoint)
    ∧ (∀ b, ¬ b.length < 1 + 32 + 32 + 32 + 32 →
      Tag.ofByte (b.headD 0) = Tag.SecretAggStepOne →
      c.sFrom ((b.drop 1).take 32) = none →
      SecretAggStepOne.deserialize c b = .error .InvalidScalar)
    ∧ (∀ b r0 r1, ¬ b.length < 1 + 32 + 32 + 32 + 32 →
      Tag.ofByte (b.headD 0) = Tag.SecretAggStepOne →
      c.sFrom ((b.drop 1).take 32) = some r0 →
      c.sFrom ((b.drop 33).take 32) = some r1 →
      c.pFrom ((b.drop 65).take 32) = none →
      SecretAggStepOne.deserialize c b = .error .InvalidPoint)
    ∧ (∀ b, ¬ b.length < 1 + 64 → Tag.ofByte (b.headD 0) = Tag.PartialSignature →
      PartialSignature.deserialize b = .ok ⟨(b.drop 1).take 64⟩) := by
  refine ⟨?_, ?_, ?_, ?_, ?_⟩
  · intro b hlen htag hbad
    unfold AggMessage1.deserialize
    rw [if_neg hlen, if_pos htag, hbad]
  · intro b r0 hlen htag h0 hbad
    unfold AggMessage1.deserialize
    rw [if_neg hlen, if_pos htag, h0, hbad]
  · intro b hlen htag hbad
    unfold SecretAggStepOne.deserialize
    rw [if_neg hlen, if_pos htag, hbad]
  · intro b r0 r1 hlen htag h0 h1 hbad
    unfold SecretAggStepOne.deserialize
    rw [if_neg hlen, if_pos htag, h0, h1, hbad]
  · intro b hlen htag
    unfold PartialSignature.deserialize
    rw [if_neg hlen, if_pos htag]

/-- C3 amended witness: invalid fields at concrete inputs. -/
theorem c3_amended_witness :
    AggMessage1.deserialize toyCtx
      (1 :: (List.replicate 32 255 ++ List.replicate 64 0)) = .error .InvalidPoint
    ∧ SecretAggStepOne.deserialize toyCtx
        (3 :: (List.replicate 32 255 ++ List.replicate 96 0)) = .error .InvalidScalar
    ∧ PartialSignature.deserialize (2 :: List.replicate 64 9) =
        .ok ⟨List.replicate 64 9⟩ :=
  ⟨(c3_amended_validation toyCtx).1 _ (by decide) (by decide) (by decide),
   (c3_amended_validation toyCtx).2.2.1 _ (by decide) (by decide) (by decide),
   (c3_amended_validation toyCtx).2.2.2.2 _ (by decide) (by decide)⟩
